import Mathlib

/-!
Verification development for the `nerfmeshes` repository.

The Python sources (`src/model_nerf.py`, `src/mesh_nerf.py`,
`src/data/datasets.py`, `src/nerf/models.py`) are shallowly embedded below:
pure tensor arithmetic is modelled over `ℚ`, Python tuples are modelled as
Lean lists (so that tuple-unpacking arity is observable), Python exceptions
are modelled with `Except PyErr` / `Option`, and Python dicts are modelled
as insertion-ordered association structures.
-/

/-- Kinds of Python runtime errors that the modelled code can raise. -/
inductive PyErr where
  /-- `ValueError` from tuple unpacking with the wrong arity. -/
  | valueError
  /-- `IndexError` from an out-of-range dataset access. -/
  | indexError
  /-- `ZeroDivisionError` from dividing by zero. -/
  | zeroDivisionError
  /-- `UnboundLocalError` from reading a local variable never assigned. -/
  | unboundLocalError
deriving DecidableEq, Repr

deriving instance DecidableEq for Except

/-- Python statement `a, b = x` where `x` is a tuple modelled as a list:
succeeds exactly when the tuple has two elements, otherwise `ValueError`. -/
def pyUnpack2 {T : Type} (x : List T) : Except PyErr (T × T) :=
  match x with
  | [a, b] => .ok (a, b)
  | _ => .error .valueError

/-- Python statement `a, b, c, d = x` for a tuple `x` modelled as a list:
succeeds exactly when the tuple has four elements, otherwise `ValueError`. -/
def pyUnpack4 {T : Type} (x : List T) : Except PyErr (T × T × T × T) :=
  match x with
  | [a, b, c, d] => .ok (a, b, c, d)
  | _ => .error .valueError

/-- `model_nerf.py` lines 70-77, `get_ray_batch`: unpacks the incoming ray
batch tuple into three names (`ray_origins, ray_directions, ray_targets =
ray_batch`) and reshapes each with `.view(-1, 3)` (modelled by `view3`,
which is value-preserving reshaping). A batch tuple of any other arity
raises `ValueError`. -/
def get_ray_batch {T : Type} (view3 : T → T) (ray_batch : List T) :
    Except PyErr (List T) :=
  match ray_batch with
  | [ray_origins, ray_directions, ray_targets] =>
      .ok [view3 ray_origins, view3 ray_directions, view3 ray_targets]
  | _ => .error .valueError

/-- `model_nerf.py` line 126, the first statement of `NeRFModel.forward`:
`ray_origins, ray_directions = x`.  The argument `x` is the tuple passed to
`model(...)`; the statement succeeds only on 2-tuples. -/
def NeRFModel_forward_unpack {T : Type} (x : List T) : Except PyErr (T × T) :=
  pyUnpack2 x

/-- `model_nerf.py` lines 217-219, the first statement of
`NeRFModel.validation_step`:
`ray_origins, ray_directions, bounds, ray_targets = get_ray_batch(image_ray_batch)`.
`get_ray_batch` is called on the incoming batch and its result is unpacked
into four names. -/
def validation_step_unpack {T : Type} (view3 : T → T) (image_ray_batch : List T) :
    Except PyErr (T × T × T × T) :=
  match get_ray_batch view3 image_ray_batch with
  | .error e => .error e
  | .ok res => pyUnpack4 res

/-- 3-vectors with rational coordinates, modelling rows of `(N, 3)` tensors. -/
abbrev Vec3 := ℚ × ℚ × ℚ

/-- Componentwise vector addition. -/
def vadd (a b : Vec3) : Vec3 := (a.1 + b.1, a.2.1 + b.2.1, a.2.2 + b.2.2)

/-- Componentwise vector subtraction. -/
def vsub (a b : Vec3) : Vec3 := (a.1 - b.1, a.2.1 - b.2.1, a.2.2 - b.2.2)

/-- Scalar multiplication of a vector. -/
def vsmul (c : ℚ) (v : Vec3) : Vec3 := (c * v.1, c * v.2.1, c * v.2.2)

/-- Vector negation, modelling the tensor unary minus. -/
def vneg (v : Vec3) : Vec3 := (-v.1, -v.2.1, -v.2.2)

/-- Dot product of two 3-vectors. -/
def vdot (a b : Vec3) : ℚ := a.1 * b.1 + a.2.1 * b.2.1 + a.2.2 * b.2.2

/-- `t[:, [1, 0, 2]]`: the coordinate reordering applied by `mesh_nerf.py`
lines 176-177 to vertices and inverted normals. -/
def reorder102 (v : Vec3) : Vec3 := (v.2.1, v.1, v.2.2)

/-- `mesh_nerf.py` line 110: `batch_size = 160*8*8`. -/
def mesh_batch_size : ℕ := 160 * 8 * 8

/-- `mesh_nerf.py` line 116: `view_disparity = 2 * limit / N` where `N` is
the grid resolution `args.res`. -/
def mesh_view_disparity (limit : ℚ) (res : ℕ) : ℚ := 2 * limit / res

/-- `mesh_nerf.py` line 199: `ray_origins = targets - view_disparity * inv_normals`. -/
def mesh_ray_origins (vd : ℚ) (targets inv_normals : List Vec3) : List Vec3 :=
  List.zipWith (fun t n => vsub t (vsmul vd n)) targets inv_normals

/-- `mesh_nerf.py` lines 202-206: the per-ray near/far bounds row
`[0.001, 2 * view_disparity]`. -/
def mesh_ray_bounds (vd : ℚ) : ℚ × ℚ := (1 / 1000, 2 * vd)

/-- Python `l[a:b]` slicing for `0 ≤ a ≤ b` within range. -/
def pySlice {α : Type} (l : List α) (a b : ℕ) : List α :=
  (l.take b).drop a

/-- The heterogeneous tensors appearing in the tuple that the mesh tool's
recoloring loop passes to `model(...)`: positions/normals are `(N, 3)`
tensors, bounds is an `(N, 2)` tensor. -/
inductive MeshObj where
  /-- A batch of 3-vectors (ray origins or directions). -/
  | tVec : List Vec3 → MeshObj
  /-- A batch of near/far bounds rows. -/
  | tBounds : List (ℚ × ℚ) → MeshObj

/-- `mesh_nerf.py` lines 195-222, the default (`specific_view = False`)
mesh-recoloring path: builds `view_disparity`, reorders vertices and
negated normals, forms `ray_origins = targets - view_disparity * inv_normals`
and the bounds rows `[0.001, 2 * view_disparity]`, and then for every batch
index in `range(len(targets) // batch_size + 1)` slices out a batch and
executes `model((pos_batch, normal_batch, ray_bounds_batch))`, i.e. calls
`NeRFModel.forward` on a 3-tuple.  `forward` begins with the 2-ary unpacking
`ray_origins, ray_directions = x` (line 126), so the call raises; the code
that would consume `forward`'s output and collect the diffuse colors is
unreachable (proved below), hence the accumulator is simply carried along. -/
def mesh_generate_texture (vertices normals : List Vec3) (limit : ℚ) (res : ℕ) :
    Except PyErr (List MeshObj) :=
  let vd := mesh_view_disparity limit res
  let targets := vertices.map reorder102
  let inv_normals := (normals.map vneg).map reorder102
  let ray_origins := mesh_ray_origins vd targets inv_normals
  let bounds_row := mesh_ray_bounds vd
  (List.range (vertices.length / mesh_batch_size + 1)).foldlM
    (fun pred idx =>
      let offset1 := mesh_batch_size * idx
      let offset2 := min (mesh_batch_size * (idx + 1)) vertices.length
      let pos_batch := pySlice ray_origins offset1 offset2
      let normal_batch := pySlice inv_normals offset1 offset2
      let ray_bounds_batch := List.replicate (offset2 - offset1) bounds_row
      match NeRFModel_forward_unpack
          [MeshObj.tVec pos_batch, MeshObj.tVec normal_batch,
           MeshObj.tBounds ray_bounds_batch] with
      | .error e => .error e
      | .ok _ => .ok pred)
    []

/-- Actions performed by `CachingDataset.__init__` (`datasets.py` lines
100-118) that are observable for claim C4. -/
inductive InitAction where
  /-- `os.makedirs(self.path, exist_ok = True)` (line 108). -/
  | makedirs
  /-- The call `self.cache_dataset()` (line 113). -/
  | cacheDataset
  /-- The call `self.load_dataset()` (line 118). -/
  | loadDataset
  /-- Enumerating the `*.data` cache files (line 115). -/
  | globPaths
deriving DecidableEq, Repr

/-- `datasets.py` lines 100-118, the mode-selection part of
`CachingDataset.__init__` as the sequence of actions it performs:
with `use_caching` set it records `cache_dir_exists = os.path.exists(cache_dir)`
first, creates the directory if it was missing, runs `self.cache_dataset()`
when `override_caching or not cache_dir_exists`, and then globs the cache
files; without `use_caching` it runs `self.load_dataset()`. -/
def cachingDataset_init_actions (use_caching override_caching cache_dir_exists : Bool) :
    List InitAction :=
  if use_caching then
    (if !cache_dir_exists then [InitAction.makedirs] else []) ++
    (if override_caching || !cache_dir_exists then [InitAction.cacheDataset] else []) ++
    [InitAction.globPaths]
  else
    [InitAction.loadDataset]

/-- The intrinsics consumed by `dummy_rays_simple_radial` (`datasets.py`
lines 30-34): `f, cx, cy = camera[0], camera[1], camera[2]`.  The source also
binds `k = camera[0]` but never reads it, so the distortion parameter is not
part of the model. -/
structure Camera where
  /-- Focal length, `camera[0]`. -/
  f : ℚ
  /-- Principal point x, `camera[1]`. -/
  cx : ℚ
  /-- Principal point y, `camera[2]`. -/
  cy : ℚ

/-- A camera pose as consumed by `get_rays` (`datasets.py` lines 71-74):
the rotation block `pose[:3, :3]` as three rows plus the translation
`pose[:3, -1]`. -/
structure Pose where
  /-- Rotation row 0. -/
  r0 : Vec3
  /-- Rotation row 1. -/
  r1 : Vec3
  /-- Rotation row 2. -/
  r2 : Vec3
  /-- Translation column. -/
  t : Vec3

/-- Modelled from the spec: `meshgrid_xy` lives in the `nerf` package, which
is not under `src/`.  Per §4.1 of the spec it returns two grids of shape
`(len seq_y, len seq_x)`, the first varying along the width axis and the
second along the height axis. -/
def meshgrid_xy (seq_x seq_y : List ℚ) : List (List ℚ) × List (List ℚ) :=
  (seq_y.map (fun _ => seq_x), seq_y.map (fun y => seq_x.map (fun _ => y)))

/-- `datasets.py` lines 30-45, `dummy_rays_simple_radial`: scales the
intrinsics by `resolution`, builds the pixel grids with `meshgrid_xy`, and
stacks directions `((ii - cx) / f, (jj - cy) / f, 1)`.  Normalization is
commented out in the source and hence absent here. -/
def dummy_rays_simple_radial (height width : ℕ) (camera : Camera) (resolution : ℚ) :
    List (List Vec3) :=
  let f := camera.f * resolution
  let cx := camera.cx * resolution
  let cy := camera.cy * resolution
  let grids := meshgrid_xy ((List.range width).map (fun i => (i : ℚ)))
    ((List.range height).map (fun j => (j : ℚ)))
  List.zipWith (List.zipWith (fun ii jj => ((ii - cx) / f, (jj - cy) / f, (1 : ℚ))))
    grids.1 grids.2

/-- `datasets.py` lines 64-80, `get_rays`: for the `"SIMPLE_RADIAL"` camera
model it builds the dummy directions and, per pose, rotates them by
`pose[:3, :3]` (`torch.sum(dummies[..., None, :] * pose[:3, :3], dim = -1)`)
and broadcasts the origin `pose[:3, -1]`; any other camera model raises
`NotImplementedError(f"Camera model {camera_model} not implemented!")`.
Returns `(all_ray_directions, all_ray_origins)` in source order. -/
def get_rays (H W : ℕ) (camera : Camera) (poses : List Pose)
    (camera_model : String) (resolution : ℚ) :
    Except String (List (List (List Vec3)) × List (List (List Vec3))) :=
  if camera_model = "SIMPLE_RADIAL" then
    let dummies := dummy_rays_simple_radial H W camera resolution
    let all_ray_directions := poses.map (fun p =>
      dummies.map (fun row => row.map (fun dv => (vdot p.r0 dv, vdot p.r1 dv, vdot p.r2 dv))))
    let all_ray_origins := poses.map (fun p =>
      dummies.map (fun row => row.map (fun _ => p.t)))
    .ok (all_ray_directions, all_ray_origins)
  else
    .error ("Camera model " ++ camera_model ++ " not implemented!")

/-- The state of a `ColmapDataset` (`datasets.py` lines 339-455) that its
`__len__`/`__getitem__` read: the (possibly pooled) ray tensors, the shared
bounds tensor, and `num_random_rays`.  Tensor rows are abstracted by `α`. -/
structure ColmapPool (α : Type) where
  /-- `self.num_random_rays`. -/
  num_random_rays : ℤ
  /-- `self.all_ray_origins` as a list of rows. -/
  all_ray_origins : List α
  /-- `self.all_ray_directions` as a list of rows. -/
  all_ray_directions : List α
  /-- `self.ray_targets` as a list of rows; in pooled mode its length is the
  total ray count `T`. -/
  ray_targets : List α
  /-- `self.ray_bounds`, shared across items. -/
  ray_bounds : α
deriving DecidableEq

/-- `datasets.py` lines 436-440, `ColmapDataset.__len__`:
`int(self.ray_targets.shape[0] / self.num_random_rays)` when
`num_random_rays >= 0` (Python float division; exact truncation of a
nonnegative quotient is natural-number division, and division by zero
raises `ZeroDivisionError`), else `self.ray_targets.shape[0]`. -/
def ColmapDataset_len {α : Type} (d : ColmapPool α) : Except PyErr ℕ :=
  if 0 ≤ d.num_random_rays then
    if d.num_random_rays = 0 then .error .zeroDivisionError
    else .ok (d.ray_targets.length / d.num_random_rays.toNat)
  else .ok d.ray_targets.length

/-- `datasets.py` lines 442-455, `ColmapDataset.__getitem__`: first calls
`self.__len__()` (propagating its `ZeroDivisionError` when
`num_random_rays = 0`), raises `IndexError("Not a valid batch number!")`
for `idx >= len`, and otherwise returns the slices
`[idx * R : idx * R + R]` (pooled) or `[idx : idx + 1]` together with the
shared bounds, in the order `(origin, direction, bounds, target)`. -/
def ColmapDataset_getitem {α : Type} (d : ColmapPool α) (idx : ℕ) :
    Except PyErr (List α × List α × α × List α) :=
  match ColmapDataset_len d with
  | .error e => .error e
  | .ok len =>
    if len ≤ idx then .error .indexError
    else if 0 ≤ d.num_random_rays then
      let start := idx * d.num_random_rays.toNat
      let stop := start + d.num_random_rays.toNat
      .ok (pySlice d.all_ray_origins start stop,
           pySlice d.all_ray_directions start stop,
           d.ray_bounds,
           pySlice d.ray_targets start stop)
    else
      .ok (pySlice d.all_ray_origins idx (idx + 1),
           pySlice d.all_ray_directions idx (idx + 1),
           d.ray_bounds,
           pySlice d.ray_targets idx (idx + 1))

/-- The state of an `LLFFColmapDataset` (`datasets.py` lines 458-542) read by
`__len__`/`__getitem__`.  Unlike `ColmapPool` the bounds are per-ray and get
sliced alongside origins/directions/targets. -/
structure LLFFPool (α : Type) where
  /-- `self.num_random_rays`. -/
  num_random_rays : ℤ
  /-- `self.all_ray_origins` as a list of rows. -/
  all_ray_origins : List α
  /-- `self.all_ray_directions` as a list of rows. -/
  all_ray_directions : List α
  /-- `self.ray_targets` as a list of rows. -/
  ray_targets : List α
  /-- `self.ray_bounds` as a list of per-ray rows. -/
  ray_bounds : List α
deriving DecidableEq

/-- `datasets.py` lines 523-527, `LLFFColmapDataset.__len__`: same formula
as `ColmapDataset.__len__`. -/
def LLFFColmapDataset_len {α : Type} (d : LLFFPool α) : Except PyErr ℕ :=
  if 0 ≤ d.num_random_rays then
    if d.num_random_rays = 0 then .error .zeroDivisionError
    else .ok (d.ray_targets.length / d.num_random_rays.toNat)
  else .ok d.ray_targets.length

/-- `datasets.py` lines 529-542, `LLFFColmapDataset.__getitem__`: same
control flow as `ColmapDataset.__getitem__` but with `self.ray_bounds`
sliced by the same indices. -/
def LLFFColmapDataset_getitem {α : Type} (d : LLFFPool α) (idx : ℕ) :
    Except PyErr (List α × List α × List α × List α) :=
  match LLFFColmapDataset_len d with
  | .error e => .error e
  | .ok len =>
    if len ≤ idx then .error .indexError
    else if 0 ≤ d.num_random_rays then
      let start := idx * d.num_random_rays.toNat
      let stop := start + d.num_random_rays.toNat
      .ok (pySlice d.all_ray_origins start stop,
           pySlice d.all_ray_directions start stop,
           pySlice d.ray_bounds start stop,
           pySlice d.ray_targets start stop)
    else
      .ok (pySlice d.all_ray_origins idx (idx + 1),
           pySlice d.all_ray_directions idx (idx + 1),
           pySlice d.ray_bounds idx (idx + 1),
           pySlice d.ray_targets idx (idx + 1))

/-- `math.ceil(a / b)` for integers with `b ≥ 1` (exact arithmetic model of
the Python float division plus ceiling). -/
def ceilDivI (a b : ℤ) : ℤ := (a + b - 1) / b

/-- Constructor arguments of `ScanNetDataset` (`datasets.py` lines 236-275)
relevant to length and frame indexing.  `skip`/`skip_every` are `Option`
(`None` in Python); note that `__init__` stores `self.skip_every` *before*
the `if skip:` branch resets only the local variable `skip_every`, so the
stored field keeps the constructor argument even when `skip` is given. -/
structure ScanNetArgs where
  /-- `len(data.frames)`. -/
  num_frames : ℤ
  /-- Constructor argument `stop` (default `-1`). -/
  stop : ℤ
  /-- Constructor argument `skip` (stored unchanged as `self.skip`). -/
  skip : Option ℤ
  /-- Constructor argument `skip_every` (stored unchanged as
  `self.skip_every`). -/
  skip_every : Option ℤ
deriving DecidableEq

/-- `datasets.py` lines 265-268: `self.stop` is `len(data.frames)` when the
`stop` argument is `-1`, else the argument itself. -/
def scannet_stop (a : ScanNetArgs) : ℤ :=
  if a.stop = -1 then a.num_frames else a.stop

/-- `datasets.py` lines 269-275: `self.data_len` is `math.ceil(stop / skip)`
when `skip` is truthy, else `stop - math.ceil(stop / skip_every)` when
`skip_every` is truthy, else `len(data.frames)`.  Python truthiness: `None`
and `0` are falsy. -/
def scannet_data_len (a : ScanNetArgs) : ℤ :=
  match a.skip with
  | some s =>
      if s = 0 then
        match a.skip_every with
        | some e => if e = 0 then a.num_frames
                    else scannet_stop a - ceilDivI (scannet_stop a) e
        | none => a.num_frames
      else ceilDivI (scannet_stop a) s
  | none =>
      match a.skip_every with
      | some e => if e = 0 then a.num_frames
                  else scannet_stop a - ceilDivI (scannet_stop a) e
      | none => a.num_frames

/-- `datasets.py` lines 299-305, the index adjustment at the start of
`ScanNetDataset.__getitem__`: `if self.skip: item *= self.skip` and then
`if self.skip_every: item += (item // self.skip_every - 1) + 1`.  Both
stored fields are consulted, one after the other. -/
def scannet_item_index (a : ScanNetArgs) (item : ℤ) : ℤ :=
  let item1 := match a.skip with
    | some s => if s = 0 then item else item * s
    | none => item
  match a.skip_every with
  | some e => if e = 0 then item1 else item1 + (item1 / e - 1) + 1
  | none => item1

/-- `model_nerf.py` lines 50-55, `intervals_to_ray_points`:
`ray_origin[..., None, :] + ray_direction[..., None, :] * point_intervals[..., :, None]`
instantiated at a batch of rays sharing one interval tensor (the shapes used
by `forward`). -/
def intervals_to_ray_points (point_intervals : List ℚ)
    (ray_directions ray_origins : List Vec3) : List (List Vec3) :=
  List.zipWith (fun dv o => point_intervals.map (fun t => vadd o (vsmul t dv)))
    ray_directions ray_origins

/-- `ray_directions[..., None, :].expand_as(ray_points)` (`model_nerf.py`
lines 137 and 156): repeats each ray's direction once per sample point. -/
def expand_dirs (ray_directions : List Vec3) (ray_points : List (List Vec3)) :
    List (List Vec3) :=
  List.zipWith (fun dv pts => pts.map (fun _ => dv)) ray_directions ray_points

/-- The components `NeRFModel.forward` (`model_nerf.py` lines 117-163)
composes.  The neural networks (`model_coarse`, `model_fine`) and the
`nerf` package modules (`VolumeRenderer`, `RaySampleInterval`, `SamplePDF`)
are learned/external functions, so they enter the embedding as opaque
function-valued fields; `num_fine` is the active config's
`nerf_cfg.num_fine` and `model_fine = none` models `self.model_fine = None`. -/
structure NeRFDeps where
  /-- `self.sample_interval(self.cfg.dataset.near, self.cfg.dataset.far)`. -/
  sample_interval : List ℚ
  /-- `self.model_coarse` applied to `(ray_points, expanded_ray_directions)`. -/
  model_coarse : List (List Vec3) → List (List Vec3) → List (List ℚ)
  /-- `self.model_fine`, absent when no fine model is configured. -/
  model_fine : Option (List (List Vec3) → List (List Vec3) → List (List ℚ))
  /-- `self.volume_renderer(radiance_field, intervals, ray_directions)`
  returning `(rgb, disp, acc, weights, depth)`. -/
  volume_renderer : List (List ℚ) → List ℚ → List Vec3 →
    List Vec3 × List ℚ × List ℚ × List ℚ × List ℚ
  /-- `self.sample_pdf(ray_intervals, weights, nerf_cfg.perturb)` with the
  `perturb` argument fixed by the active config. -/
  sample_pdf : List ℚ → List ℚ → List ℚ
  /-- `nerf_cfg.num_fine` of the active config. -/
  num_fine : ℕ

/-- The 6-tuple returned by `NeRFModel.forward` (`model_nerf.py` lines
162-163): coarse results always, fine results only when a fine pass ran. -/
structure ForwardOut where
  /-- `rgb_coarse`. -/
  rgb_coarse : List Vec3
  /-- `disp_coarse`. -/
  disp_coarse : List ℚ
  /-- `acc_coarse`. -/
  acc_coarse : List ℚ
  /-- `rgb_fine` (`None` when no fine pass ran). -/
  rgb_fine : Option (List Vec3)
  /-- `disp_fine`. -/
  disp_fine : Option (List ℚ)
  /-- `acc_fine`. -/
  acc_fine : Option (List ℚ)

/-- `model_nerf.py` lines 117-163, the body of `NeRFModel.forward` after the
2-tuple unpacking: coarse sampling, coarse model, coarse volume rendering;
then, iff `nerf_cfg.num_fine > 0 and self.model_fine`, PDF resampling and a
fine model/render pass. -/
def nerf_forward (dep : NeRFDeps) (ray_origins ray_directions : List Vec3) :
    ForwardOut :=
  let ray_intervals := dep.sample_interval
  let ray_points := intervals_to_ray_points ray_intervals ray_directions ray_origins
  let expanded_ray_directions := expand_dirs ray_directions ray_points
  let coarse_radiance_field := dep.model_coarse ray_points expanded_ray_directions
  let (rgb_coarse, disp_coarse, acc_coarse, weights, _depth_coarse) :=
    dep.volume_renderer coarse_radiance_field ray_intervals ray_directions
  match dep.model_fine with
  | some mf =>
    if 0 < dep.num_fine then
      let fine_ray_intervals := dep.sample_pdf ray_intervals weights
      let fine_points := intervals_to_ray_points fine_ray_intervals ray_directions ray_origins
      let fine_expanded := expand_dirs ray_directions fine_points
      let fine_radiance_field := mf fine_points fine_expanded
      let (rgb_fine, disp_fine, acc_fine, _, _) :=
        dep.volume_renderer fine_radiance_field fine_ray_intervals ray_directions
      ⟨rgb_coarse, disp_coarse, acc_coarse, some rgb_fine, some disp_fine, some acc_fine⟩
    else ⟨rgb_coarse, disp_coarse, acc_coarse, none, none, none⟩
  | none => ⟨rgb_coarse, disp_coarse, acc_coarse, none, none, none⟩

/-- `torch.nn.MSELoss()` with the default `mean` reduction on `(N, 3)`
tensors: the mean of the squared componentwise differences over all `3 N`
elements. -/
def mseLoss (pred target : List Vec3) : ℚ :=
  (List.zipWith (fun a b =>
      (a.1 - b.1) ^ 2 + (a.2.1 - b.2.1) ^ 2 + (a.2.2 - b.2.2) ^ 2)
    pred target).sum / (3 * pred.length)

/-- The scalars computed by `NeRFModel.training_step` (`model_nerf.py` lines
176-214); `fine_loss` is `None` when no fine rendering exists. -/
structure TrainStepOut where
  /-- The returned `loss`. -/
  loss : ℚ
  /-- `coarse_loss`. -/
  coarse_loss : ℚ
  /-- `fine_loss`. -/
  fine_loss : Option ℚ
  /-- `mse_loss`. -/
  mse_loss : ℚ
  /-- `psnr`. -/
  psnr : ℚ
deriving DecidableEq

/-- `model_nerf.py` lines 176-214, `NeRFModel.training_step`: unpacks the
batch with `get_ray_batch`, calls `self.forward((ray_origins,
ray_directions))` (a 2-tuple, matching `forward`'s unpacking), computes
`coarse_loss` always and `fine_loss` when `rgb_fine is not None`, sets
`loss = mse_loss = coarse_loss + fine_loss` (or just `coarse_loss`), and
`psnr = mse2psnr(fine_loss)` (or of `coarse_loss`).  `mse2psnr` lives in
the `nerf` package outside `src/`, so it is an opaque parameter here. -/
def training_step (mse2psnr : ℚ → ℚ) (dep : NeRFDeps)
    (ray_batch : List (List Vec3)) : Except PyErr TrainStepOut :=
  match get_ray_batch (fun t => t) ray_batch with
  | .error e => .error e
  | .ok [ray_origins, ray_directions, ray_targets] =>
    let fwd := nerf_forward dep ray_origins ray_directions
    let coarse_loss := mseLoss fwd.rgb_coarse ray_targets
    match fwd.rgb_fine with
    | some rgb_fine =>
      let fine_loss := mseLoss rgb_fine ray_targets
      .ok ⟨coarse_loss + fine_loss, coarse_loss, some fine_loss,
           coarse_loss + fine_loss, mse2psnr fine_loss⟩
    | none =>
      .ok ⟨coarse_loss, coarse_loss, none, coarse_loss, mse2psnr coarse_loss⟩
  | .ok _ => .error .valueError

/-- The layers of a `SpecularSimpleModel` (`nerf/models.py` lines 129-162).
Feature tensors have type `F`, head outputs type `O`; the learned layers are
opaque function-valued fields.  When `hidden_layers_view < 0` the
constructor skips `hidden_view`/`specular`/`combine`, but `forward` reads
the stored `hidden_layers_view_amount`, which is what the claim is about,
so the fields are present and simply unused in that case. -/
structure SpecularSimpleModelF (P D F O : Type) where
  /-- `self.hidden_layers_view_amount` (the constructor's
  `hidden_layers_view`). -/
  hidden_layers_view_amount : ℤ
  /-- `self.encode_xyz`. -/
  encode_xyz : P → F
  /-- `self.encode_dir`. -/
  encode_dir : D → F
  /-- `self.layer0`. -/
  layer0 : F → F
  /-- `self.hidden_all`. -/
  hidden_all : F → F → F
  /-- `self.depth`. -/
  depth : F → O
  /-- `self.color`. -/
  color : F → O
  /-- `self.hidden_view`. -/
  hidden_view : F → F → F
  /-- `self.specular`. -/
  specular : F → O
  /-- `self.combine`. -/
  combine : O → O → O
  /-- `torch.cat((xyz, encoded_dir), dim=-1)`. -/
  catFeat : F → F → F
  /-- `torch.cat([color, depth], dim=-1)`. -/
  catOut : O → O → O
  /-- `torch.nn.functional.relu` on the specular head output. -/
  reluO : O → O

/-- `nerf/models.py` lines 164-175, `SpecularSimpleModel.forward`: computes
`xyz`, `x`, `depth`, `color`; only inside the branch guarded by
`self.hidden_layers_view_amount >= 0 and ray_directions is not None` does
it assign `specular`; the return statement
`return torch.cat([color, depth], dim=-1), specular` reads `specular`
unconditionally, raising `UnboundLocalError` when the branch was skipped. -/
def SpecularSimpleModel_forward {P D F O : Type} (m : SpecularSimpleModelF P D F O)
    (ray_points : P) (ray_directions : Option D) : Except PyErr (O × O) :=
  let xyz := m.encode_xyz ray_points
  let x0 := m.layer0 xyz
  let x1 := m.hidden_all x0 xyz
  let depth := m.depth x1
  let color := m.color x1
  match ray_directions with
  | some dirs =>
    if 0 ≤ m.hidden_layers_view_amount then
      let xyzdir := m.catFeat xyz (m.encode_dir dirs)
      let x2 := m.hidden_view x1 xyzdir
      let specular := m.reluO (m.specular x2)
      let color2 := m.combine color specular
      .ok (m.catOut color2 depth, specular)
    else .error .unboundLocalError
  | none => .error .unboundLocalError

/-- The layers of a `SimpleModel` (`nerf/models.py` lines 84-115), the
sibling variant of `SpecularSimpleModel` with the same backbone. -/
structure SimpleModelF (P D F O : Type) where
  /-- `self.hidden_layers_view_amount`. -/
  hidden_layers_view_amount : ℤ
  /-- `self.encode_xyz`. -/
  encode_xyz : P → F
  /-- `self.encode_dir`. -/
  encode_dir : D → F
  /-- `self.layer0`. -/
  layer0 : F → F
  /-- `self.hidden_all`. -/
  hidden_all : F → F → F
  /-- `self.depth`. -/
  depth : F → O
  /-- `self.color`. -/
  color : F → O
  /-- `self.hidden_view`. -/
  hidden_view : F → F → F
  /-- `torch.cat((xyz, encoded_dir), dim=-1)`. -/
  catFeat : F → F → F
  /-- `torch.cat([color, depth], dim=-1)`. -/
  catOut : O → O → O

/-- `nerf/models.py` lines 117-126, `SimpleModel.forward`: every local it
returns is assigned on every path, so the call always produces a value
(in contrast to `SpecularSimpleModel.forward`). -/
def SimpleModel_forward {P D F O : Type} (m : SimpleModelF P D F O)
    (ray_points : P) (ray_directions : Option D) : Except PyErr O :=
  let xyz := m.encode_xyz ray_points
  let x0 := m.layer0 xyz
  let x1 := m.hidden_all x0 xyz
  let depth := m.depth x1
  match ray_directions with
  | some dirs =>
    if 0 ≤ m.hidden_layers_view_amount then
      let xyzdir := m.catFeat xyz (m.encode_dir dirs)
      let x2 := m.hidden_view x1 xyzdir
      .ok (m.catOut (m.color x2) depth)
    else .ok (m.catOut (m.color x1) depth)
  | none => .ok (m.catOut (m.color x1) depth)

/-- `os.path.join(a, b)` for POSIX paths modelled as character lists:
if `b` is absolute the result is `b`; if `a` is empty or ends with the
separator the result is `a ++ b`; otherwise a separator is inserted. -/
def ospath_join (a b : List Char) : List Char :=
  if b.head? = some '/' then b
  else if a = [] ∨ a.getLast? = some '/' then a ++ b
  else a ++ '/' :: b

/-- The file name component `"mesh_cache.npy"` appearing in
`mesh_nerf.py` lines 159 and 166. -/
def mesh_cache_name : List Char :=
  ['m', 'e', 's', 'h', '_', 'c', 'a', 'c', 'h', 'e', '.', 'n', 'p', 'y']

/-- `mesh_nerf.py` line 159: the geometry cache is written to
`os.path.join(args.save_dir, args.save_dir + "mesh_cache.npy")`. -/
def mesh_cache_save_path (save_dir : List Char) : List Char :=
  ospath_join save_dir (save_dir ++ mesh_cache_name)

/-- `mesh_nerf.py` line 166: the `--no-cache-mesh` branch loads the
geometry cache from `os.path.join(args.save_dir, "mesh_cache.npy")`. -/
def mesh_cache_load_path (save_dir : List Char) : List Char :=
  ospath_join save_dir mesh_cache_name

/-- Dict keys are Python strings, modelled as character lists so that the
separator-splitting of `nest_dict` is fully explicit. -/
abbrev Key := List Char

/-- An insertion-ordered Python dict whose values are either scalars
(`consInt`: any non-mapping value, modelled by `ℤ`) or nested dicts
(`consDict`), exactly the shapes `flatten_dict`'s
`isinstance(v, collections.MutableMapping)` test distinguishes. -/
inductive PyDict where
  /-- The empty dict. -/
  | nil : PyDict
  /-- An entry whose value is a scalar, followed by the remaining entries. -/
  | consInt : Key → ℤ → PyDict → PyDict
  /-- An entry whose value is a nested dict, followed by the remaining
  entries. -/
  | consDict : Key → PyDict → PyDict → PyDict
deriving DecidableEq, Repr

/-- A Python value stored in a dict: a scalar or a mapping. -/
inductive PyVal where
  /-- A scalar value. -/
  | vInt : ℤ → PyVal
  /-- A mapping value. -/
  | vDict : PyDict → PyVal
deriving DecidableEq, Repr

/-- Prepend one entry (tagged by its value kind) to a dict. -/
def consOf (k : Key) (v : PyVal) (rest : PyDict) : PyDict :=
  match v with
  | .vInt n => .consInt k n rest
  | .vDict d => .consDict k d rest

/-- The ordered key list of a dict. -/
def dictKeys : PyDict → List Key
  | .nil => []
  | .consInt k _ rest => k :: dictKeys rest
  | .consDict k _ rest => k :: dictKeys rest

/-- Python `d[key]` as an `Option` (first matching entry; a dict has at most
one entry per key). -/
def pyGet : PyDict → Key → Option PyVal
  | .nil, _ => none
  | .consInt k n rest, key => if k = key then some (.vInt n) else pyGet rest key
  | .consDict k d rest, key => if k = key then some (.vDict d) else pyGet rest key

/-- Python `d[key] = v`: updates the value in place if the key is present,
otherwise appends the new entry at the end (insertion order). -/
def setKeyD : PyDict → Key → PyVal → PyDict
  | .nil, key, v => consOf key v .nil
  | .consInt k n rest, key, v =>
      if k = key then consOf key v rest else .consInt k n (setKeyD rest key v)
  | .consDict k d rest, key, v =>
      if k = key then consOf key v rest else .consDict k d (setKeyD rest key v)

/-- Concatenation of two dicts (used only to state theorems about insertion
order; the modelled code never calls it). -/
def dictAppend : PyDict → PyDict → PyDict
  | .nil, e => e
  | .consInt k n rest, e => .consInt k n (dictAppend rest e)
  | .consDict k d rest, e => .consDict k d (dictAppend rest e)

/-- `k.split(sep, 1)` on a character-list key: the part before the first
occurrence of `sep`, and the remainder after it when `sep` occurs. -/
def splitOnce (sep : Char) : Key → Key × Option Key
  | [] => ([], none)
  | c :: cs =>
      if c = sep then ([], some cs)
      else
        let p := splitOnce sep cs
        (c :: p.1, p.2)

/-- `model_nerf.py` line 27: `new_key = parent_key + sep + k if parent_key
else k` (the empty parent string is falsy). -/
def joinKey (parent_key : Key) (sep : Char) (k : Key) : Key :=
  if parent_key.isEmpty then k else parent_key ++ sep :: k

/-- `dict.__setitem__` on a flat association list (last write wins, first
insertion fixes the position). -/
def setKeyFlat : List (Key × ℤ) → Key → ℤ → List (Key × ℤ)
  | [], k, v => [(k, v)]
  | (k', v') :: rest, k, v =>
      if k' = k then (k', v) :: rest else (k', v') :: setKeyFlat rest k v

/-- Python `dict(items)`: inserts the pairs in order, so duplicate keys
keep their first position but their last value. -/
def dictOf (l : List (Key × ℤ)) : List (Key × ℤ) :=
  l.foldl (fun acc kv => setKeyFlat acc kv.1 kv.2) []

/-- `model_nerf.py` lines 24-32, the `items` accumulation of
`flatten_dict(d, parent_key, sep)`: scalar values contribute
`(new_key, v)`; mapping values contribute
`flatten_dict(v, new_key, sep).items()`, i.e. the deduplicated
(`dictOf`-wrapped) recursive flattening. -/
def flatten_items (sep : Char) (parent_key : Key) : PyDict → List (Key × ℤ)
  | .nil => []
  | .consInt k n rest =>
      (joinKey parent_key sep k, n) :: flatten_items sep parent_key rest
  | .consDict k d rest =>
      dictOf (flatten_items sep (joinKey parent_key sep k) d) ++
        flatten_items sep parent_key rest

/-- `model_nerf.py` lines 24-32, `flatten_dict`: the accumulated items
wrapped in `dict(...)`. -/
def flatten_dict (sep : Char) (parent_key : Key) (d : PyDict) : List (Key × ℤ) :=
  dictOf (flatten_items sep parent_key d)

/-- `model_nerf.py` lines 42-47, `_nest_dict_rec(k, v, out, sep)`:
splits `k` at the first separator; with no separator left performs
`out[k] = v`; otherwise recurses into `out.setdefault(k1, {})`.  The
in-place mutation of the sub-dict is modelled by writing the recursion's
result back with `setKeyD`; when `out[k1]` exists but is a scalar, the
recursive call operates on an `int` and raises (`none`). -/
def nest_rec (sep : Char) (k : Key) (v : ℤ) (out : PyDict) : Option PyDict :=
  match h : splitOnce sep k with
  | (k1, none) => some (setKeyD out k1 (.vInt v))
  | (k1, some rest) =>
    match pyGet out k1 with
    | some (.vInt _) => none
    | some (.vDict d) =>
      match nest_rec sep rest v d with
      | none => none
      | some inner => some (setKeyD out k1 (.vDict inner))
    | none =>
      match nest_rec sep rest v PyDict.nil with
      | none => none
      | some inner => some (setKeyD out k1 (.vDict inner))
termination_by k.length
decreasing_by
  all_goals
    have key : ∀ (kk k1 r : Key), splitOnce sep kk = (k1, some r) →
        r.length < kk.length := by
      intro kk
      induction kk with
      | nil => intro k1 r hh; simp [splitOnce] at hh
      | cons c cs ih =>
        intro k1 r hh
        by_cases hc : c = sep
        · simp only [splitOnce, if_pos hc] at hh
          injection hh with h1 h2
          injection h2 with h2
          subst h2
          simp
        · simp only [splitOnce, if_neg hc] at hh
          injection hh with h1 h2
          have hsp : splitOnce sep cs = ((splitOnce sep cs).1, some r) := by
            rw [← h2]
          have := ih (splitOnce sep cs).1 r hsp
          simp only [List.length_cons]
          omega
  all_goals exact key k k1 rest h

/-- The `for k, v in flat.items(): _nest_dict_rec(k, v, result, sep)` loop
of `nest_dict` (`model_nerf.py` lines 35-39), threading the mutable
`result` dict and propagating any raised error. -/
def nest_fold (sep : Char) (flat : List (Key × ℤ)) (result : PyDict) :
    Option PyDict :=
  match flat with
  | [] => some result
  | (k, v) :: rest =>
    match nest_rec sep k v result with
    | none => none
    | some result' => nest_fold sep rest result'

/-- `model_nerf.py` lines 35-39, `nest_dict(flat, sep)`: folds
`_nest_dict_rec` over the flat items starting from the empty dict. -/
def nest_dict (flat : List (Key × ℤ)) (sep : Char) : Option PyDict :=
  nest_fold sep flat PyDict.nil

/-- A key is usable for the round trip when it is nonempty and contains no
separator character. -/
def keyOk (sep : Char) (k : Key) : Bool :=
  !k.isEmpty && k.all (fun c => c != sep)

/-- Well-formedness of a configuration dict for the round-trip theorem:
every key (at every level) is `keyOk`, keys are unique per level (as Python
dicts guarantee), and nested sub-dicts are nonempty (an empty sub-dict has
no items and silently disappears under flattening). -/
def dictWF (sep : Char) : PyDict → Bool
  | .nil => true
  | .consInt k _ rest =>
      keyOk sep k && !(dictKeys rest).contains k && dictWF sep rest
  | .consDict k d rest =>
      keyOk sep k && !(dictKeys rest).contains k &&
        !(d = PyDict.nil : Bool) && dictWF sep d && dictWF sep rest

/-- `true` when some top-level value is itself a mapping, i.e. the
configuration has at least two levels of nesting. -/
def hasNestedDict : PyDict → Bool
  | .nil => false
  | .consInt _ _ rest => hasNestedDict rest
  | .consDict _ _ _ => true

/-- The leaf values of a configuration in depth-first order (used to state
what the round trip preserves or loses). -/
def dictLeafVals : PyDict → List ℤ
  | .nil => []
  | .consInt _ n rest => n :: dictLeafVals rest
  | .consDict _ d rest => dictLeafVals d ++ dictLeafVals rest

/-- A key extends `base` when it is `base` itself or `base` followed by the
separator and a remainder — the shape of every flattened key below a given
top-level key. -/
def extKey (sep : Char) (base k : Key) : Prop :=
  k = base ∨ ∃ r, k = base ++ sep :: r

/-!
Theorems.  Each claim of the specification audit gets exactly one main
theorem below; supporting lemmas are shared.
-/

/-- Claim C3: `NeRFModel.validation_step` raises a tuple-arity `ValueError`
on its first statement for every input batch — `get_ray_batch` either
rejects a batch that is not a 3-tuple or returns a 3-tuple, which the
4-variable destructuring then rejects — and its inner `forward` call would
likewise fail, since `forward` destructures its argument into exactly two
variables while `validation_step` passes the 3-tuple
`(origins, directions, bounds)`.  Hence the chunked validation loop can
never complete for any input. -/
theorem validation_step_tuple_arity_error :
    (∀ (T : Type) (view3 : T → T) (image_ray_batch : List T),
      ∃ e, validation_step_unpack view3 image_ray_batch = .error e) ∧
    (∀ (T : Type) (origins directions bounds : T),
      NeRFModel_forward_unpack [origins, directions, bounds] =
        .error .valueError) := by
  constructor
  · intro T view3 batch
    match batch with
    | [] => exact ⟨.valueError, rfl⟩
    | [a] => exact ⟨.valueError, rfl⟩
    | [a, b] => exact ⟨.valueError, rfl⟩
    | [a, b, c] => exact ⟨.valueError, rfl⟩
    | a :: b :: c :: d :: rest => exact ⟨.valueError, rfl⟩
  · intro T o d b
    rfl

/-- Claim C1 (code bug): the default recoloring path builds the rays exactly
as the spec says (`mesh_ray_origins`, `mesh_ray_bounds`,
`mesh_view_disparity`, batches of `160*8*8 = 10240`), but every batch is
passed to `model(...)` as a 3-tuple while `NeRFModel.forward` destructures
its argument into exactly two variables, so the whole texture pass raises
`ValueError` on its first batch and no vertex color is ever assigned. -/
theorem mesh_generate_texture_always_fails (vertices normals : List Vec3)
    (limit : ℚ) (res : ℕ) :
    mesh_generate_texture vertices normals limit res = .error .valueError ∧
    mesh_batch_size = 10240 := by
  constructor
  · unfold mesh_generate_texture
    rw [List.range_succ_eq_map]
    simp only [List.foldlM_cons, NeRFModel_forward_unpack, pyUnpack2]
    rfl
  · rfl

/-- Claim C4: with `use_caching` enabled, `CachingDataset.__init__` invokes
`cache_dataset()` iff `override_caching` is set or the cache directory did
not exist before construction; in particular when the directory was just
created (it did not exist), caching runs regardless of the flag. -/
theorem cache_dataset_invocation (override_caching cache_dir_exists : Bool) :
    (InitAction.cacheDataset ∈
        cachingDataset_init_actions true override_caching cache_dir_exists ↔
      (override_caching = true ∨ cache_dir_exists = false)) ∧
    InitAction.cacheDataset ∈ cachingDataset_init_actions true override_caching false := by
  cases override_caching <;> cases cache_dir_exists <;>
    simp [cachingDataset_init_actions]

/-- Claim C5: `get_rays` raises `NotImplementedError` naming the camera
model for every `camera_model` other than `"SIMPLE_RADIAL"`, and for
`"SIMPLE_RADIAL"` it raises nothing and returns the ray bundles. -/
theorem get_rays_camera_model_error (H W : ℕ) (camera : Camera)
    (poses : List Pose) (camera_model : String) (resolution : ℚ) :
    (get_rays H W camera poses camera_model resolution =
        .error ("Camera model " ++ camera_model ++ " not implemented!") ↔
      camera_model ≠ "SIMPLE_RADIAL") ∧
    ∃ bundles, get_rays H W camera poses "SIMPLE_RADIAL" resolution = .ok bundles := by
  constructor
  · by_cases h : camera_model = "SIMPLE_RADIAL"
    · subst h
      simp [get_rays]
    · simp [get_rays, h]
  · exact ⟨_, rfl⟩

/-- Claim C7 (code bug), evaluated at the failing input
`ScanNetDataset(data, stop = 10, skip = 2, skip_every = 3)`: the length is
`ceil(10/2) = 5` as the claim states, but `__getitem__(2)` reads frame `5`,
not `2 * 2 = 4` — the stored `skip_every` is still consulted because
`__init__` only resets the local variable, so `skip` is not in fact
mutually exclusive with `skip_every`. -/
theorem scannet_skip_every_leak :
    scannet_data_len ⟨20, 10, some 2, some 3⟩ = 5 ∧
    scannet_item_index ⟨20, 10, some 2, some 3⟩ 2 = 5 ∧
    (2 * 2 : ℤ) = 4 ∧ (5 : ℤ) ≠ 4 := by
  refine ⟨by decide, by decide, by decide, by decide⟩

/-- Claim C9: `SpecularSimpleModel.forward` raises `UnboundLocalError`
exactly when `ray_directions` is `None` or the model was constructed with
`hidden_layers_view < 0` (the `specular` local in its return statement is
assigned only inside the view-conditioned branch), while the sibling
`SimpleModel.forward` returns a value on every input. -/
theorem specular_forward_unbound_local {P D F O : Type}
    (m : SpecularSimpleModelF P D F O) (ray_points : P)
    (ray_directions : Option D) :
    (SpecularSimpleModel_forward m ray_points ray_directions =
        .error .unboundLocalError ↔
      (ray_directions = none ∨ m.hidden_layers_view_amount < 0)) ∧
    (∀ (ms : SimpleModelF P D F O) (p : P) (rd : Option D),
      ∃ out, SimpleModel_forward ms p rd = .ok out) := by
  constructor
  · cases ray_directions with
    | none => simp [SpecularSimpleModel_forward]
    | some dirs =>
      by_cases h : 0 ≤ m.hidden_layers_view_amount
      · simp only [SpecularSimpleModel_forward, if_pos h]
        constructor
        · intro hcontra
          exact absurd hcontra (by simp)
        · intro hcontra
          rcases hcontra with hcontra | hcontra
          · exact absurd hcontra (by simp)
          · omega
      · simp only [SpecularSimpleModel_forward, if_neg h]
        constructor
        · intro _
          right
          omega
        · intro _
          trivial
  · intro ms p rd
    cases rd with
    | none => exact ⟨_, rfl⟩
    | some dirs =>
      by_cases h : 0 ≤ ms.hidden_layers_view_amount
      · simp only [SimpleModel_forward, if_pos h]
        exact ⟨_, rfl⟩
      · simp only [SimpleModel_forward, if_neg h]
        exact ⟨_, rfl⟩

/-- Claim C6 (amended): for `ColmapDataset` and `LLFFColmapDataset` in
pooled mode with `num_random_rays = R ≥ 1` and a pool of `T` total rays,
`__len__` returns `⌊T / R⌋` and `__getitem__` raises `IndexError` for every
index `≥ ⌊T / R⌋` (in particular at index `len(dataset)`).  At `R = 0` —
which the original claim's `R ≥ 0` admits — `__len__` instead raises
`ZeroDivisionError` (see the counterexample). -/
theorem pooled_indexing_exactness {α : Type} (dc : ColmapPool α) (dl : LLFFPool α)
    (hc : 1 ≤ dc.num_random_rays) (hl : 1 ≤ dl.num_random_rays) :
    (ColmapDataset_len dc = .ok (dc.ray_targets.length / dc.num_random_rays.toNat) ∧
     ∀ idx, dc.ray_targets.length / dc.num_random_rays.toNat ≤ idx →
       ColmapDataset_getitem dc idx = .error .indexError) ∧
    (LLFFColmapDataset_len dl = .ok (dl.ray_targets.length / dl.num_random_rays.toNat) ∧
     ∀ idx, dl.ray_targets.length / dl.num_random_rays.toNat ≤ idx →
       LLFFColmapDataset_getitem dl idx = .error .indexError) := by
  have hc0 : 0 ≤ dc.num_random_rays := by omega
  have hcne : ¬dc.num_random_rays = 0 := by omega
  have hl0 : 0 ≤ dl.num_random_rays := by omega
  have hlne : ¬dl.num_random_rays = 0 := by omega
  have hlenc : ColmapDataset_len dc =
      .ok (dc.ray_targets.length / dc.num_random_rays.toNat) := by
    unfold ColmapDataset_len
    rw [if_pos hc0, if_neg hcne]
  have hlenl : LLFFColmapDataset_len dl =
      .ok (dl.ray_targets.length / dl.num_random_rays.toNat) := by
    unfold LLFFColmapDataset_len
    rw [if_pos hl0, if_neg hlne]
  refine ⟨⟨hlenc, ?_⟩, ⟨hlenl, ?_⟩⟩
  · intro idx hidx
    unfold ColmapDataset_getitem
    simp only [hlenc, if_pos hidx]
  · intro idx hidx
    unfold LLFFColmapDataset_getitem
    simp only [hlenl, if_pos hidx]

/-- Witness for the amended claim C6 at a concrete pooled dataset pair:
`R = 2` with `T = 4` rays gives length `2`, and index `2 = len(dataset)`
raises `IndexError`; similarly for the LLFF variant with `R = 3`, `T = 7`. -/
theorem pooled_indexing_exactness_witness :
    (1 : ℤ) ≤ 2 ∧
    ColmapDataset_len (⟨2, [0, 1, 2, 3], [4, 5, 6, 7], [10, 11, 12, 13], 99⟩ :
      ColmapPool ℕ) = .ok 2 ∧
    ColmapDataset_getitem (⟨2, [0, 1, 2, 3], [4, 5, 6, 7], [10, 11, 12, 13], 99⟩ :
      ColmapPool ℕ) 2 = .error .indexError ∧
    LLFFColmapDataset_len (⟨3, [0, 1, 2, 3, 4, 5, 6], [0, 1, 2, 3, 4, 5, 6],
      [0, 1, 2, 3, 4, 5, 6], [0, 1, 2, 3, 4, 5, 6]⟩ : LLFFPool ℕ) = .ok 2 ∧
    LLFFColmapDataset_getitem (⟨3, [0, 1, 2, 3, 4, 5, 6], [0, 1, 2, 3, 4, 5, 6],
      [0, 1, 2, 3, 4, 5, 6], [0, 1, 2, 3, 4, 5, 6]⟩ : LLFFPool ℕ) 2 =
      .error .indexError := by
  refine ⟨by decide, ?_, ?_, ?_, ?_⟩
  · exact (pooled_indexing_exactness
      (⟨2, [0, 1, 2, 3], [4, 5, 6, 7], [10, 11, 12, 13], 99⟩ : ColmapPool ℕ)
      (⟨3, [0, 1, 2, 3, 4, 5, 6], [0, 1, 2, 3, 4, 5, 6], [0, 1, 2, 3, 4, 5, 6],
        [0, 1, 2, 3, 4, 5, 6]⟩ : LLFFPool ℕ) (by decide) (by decide)).1.1
  · exact (pooled_indexing_exactness
      (⟨2, [0, 1, 2, 3], [4, 5, 6, 7], [10, 11, 12, 13], 99⟩ : ColmapPool ℕ)
      (⟨3, [0, 1, 2, 3, 4, 5, 6], [0, 1, 2, 3, 4, 5, 6], [0, 1, 2, 3, 4, 5, 6],
        [0, 1, 2, 3, 4, 5, 6]⟩ : LLFFPool ℕ) (by decide) (by decide)).1.2 2 (by decide)
  · exact (pooled_indexing_exactness
      (⟨2, [0, 1, 2, 3], [4, 5, 6, 7], [10, 11, 12, 13], 99⟩ : ColmapPool ℕ)
      (⟨3, [0, 1, 2, 3, 4, 5, 6], [0, 1, 2, 3, 4, 5, 6], [0, 1, 2, 3, 4, 5, 6],
        [0, 1, 2, 3, 4, 5, 6]⟩ : LLFFPool ℕ) (by decide) (by decide)).2.1
  · exact (pooled_indexing_exactness
      (⟨2, [0, 1, 2, 3], [4, 5, 6, 7], [10, 11, 12, 13], 99⟩ : ColmapPool ℕ)
      (⟨3, [0, 1, 2, 3, 4, 5, 6], [0, 1, 2, 3, 4, 5, 6], [0, 1, 2, 3, 4, 5, 6],
        [0, 1, 2, 3, 4, 5, 6]⟩ : LLFFPool ℕ) (by decide) (by decide)).2.2 2 (by decide)

/-- Counterexample to claim C6 as stated: at `num_random_rays = 0` — allowed
by the claim's `R ≥ 0` — `__len__` raises `ZeroDivisionError` rather than
returning `⌊T / R⌋`, and `dataset[0]` propagates that error instead of the
claimed `IndexError`. -/
theorem pooled_zero_rays_counterexample :
    ColmapDataset_len (⟨0, [0, 1, 2, 3, 4], [0, 1, 2, 3, 4], [0, 1, 2, 3, 4], 7⟩ :
      ColmapPool ℕ) = .error .zeroDivisionError ∧
    ColmapDataset_getitem (⟨0, [0, 1, 2, 3, 4], [0, 1, 2, 3, 4], [0, 1, 2, 3, 4], 7⟩ :
      ColmapPool ℕ) 0 = .error .zeroDivisionError ∧
    PyErr.zeroDivisionError ≠ PyErr.indexError := by
  refine ⟨by decide, by decide, by decide⟩

/-- Claim C8: `training_step` computes the coarse MSE always and the fine
MSE when a fine rendering exists; the returned `loss` (and `mse_loss`) is
their unweighted sum (or the coarse loss alone), and `psnr` is `mse2psnr`
of the fine loss when present, else of the coarse loss.  A fine rendering
exists iff a fine model is configured and the active `num_fine` is
positive. -/
theorem training_step_loss_psnr (mse2psnr : ℚ → ℚ) (dep : NeRFDeps)
    (ray_origins ray_directions ray_targets : List Vec3) :
    (training_step mse2psnr dep [ray_origins, ray_directions, ray_targets] =
      (let fwd := nerf_forward dep ray_origins ray_directions
       let coarse_loss := mseLoss fwd.rgb_coarse ray_targets
       match fwd.rgb_fine with
       | some rgb_fine =>
           .ok ⟨coarse_loss + mseLoss rgb_fine ray_targets, coarse_loss,
                some (mseLoss rgb_fine ray_targets),
                coarse_loss + mseLoss rgb_fine ray_targets,
                mse2psnr (mseLoss rgb_fine ray_targets)⟩
       | none =>
           .ok ⟨coarse_loss, coarse_loss, none, coarse_loss,
                mse2psnr coarse_loss⟩)) ∧
    ((nerf_forward dep ray_origins ray_directions).rgb_fine.isSome ↔
      dep.model_fine.isSome ∧ 0 < dep.num_fine) := by
  constructor
  · rfl
  · cases hmf : dep.model_fine with
    | none => simp [nerf_forward, hmf]
    | some mf =>
      by_cases hnf : 0 < dep.num_fine
      · simp [nerf_forward, hmf, hnf]
      · simp [nerf_forward, hmf, hnf]

/-- Claim C10: the geometry cache is written to
`join(save_dir, save_dir + "mesh_cache.npy")` but read back from
`join(save_dir, "mesh_cache.npy")`; whenever `save_dir` has a non-empty
final path component (it is nonempty and does not end in `/`), the two
paths differ, so a `--cache-mesh` run followed by a `--no-cache-mesh` run
with the same `save_dir` does not read the file it just wrote. -/
theorem mesh_cache_paths_differ (save_dir : List Char)
    (hne : save_dir ≠ []) (hlast : save_dir.getLast? ≠ some '/') :
    mesh_cache_save_path save_dir ≠ mesh_cache_load_path save_dir := by
  obtain ⟨c, d, rfl⟩ : ∃ c d, save_dir = c :: d := by
    cases save_dir with
    | nil => exact absurd rfl hne
    | cons c d => exact ⟨c, d, rfl⟩
  have hMhead : ¬(mesh_cache_name.head? = some '/') := by decide
  have hnotor : ¬(c :: d = [] ∨ (c :: d).getLast? = some '/') := by
    intro hor
    rcases hor with hor | hor
    · exact List.cons_ne_nil _ _ hor
    · exact hlast hor
  have hload : mesh_cache_load_path (c :: d) = (c :: d) ++ '/' :: mesh_cache_name := by
    unfold mesh_cache_load_path ospath_join
    rw [if_neg hMhead, if_neg hnotor]
  have hsavehead : ((c :: d) ++ mesh_cache_name).head? = some c := rfl
  by_cases hc : c = '/'
  · have hsave : mesh_cache_save_path (c :: d) = (c :: d) ++ mesh_cache_name := by
      unfold mesh_cache_save_path ospath_join
      rw [if_pos]
      rw [hsavehead, hc]
    intro hcontra
    rw [hsave, hload] at hcontra
    have hlen := congrArg List.length hcontra
    simp only [List.length_append, List.length_cons] at hlen
    omega
  · have hsave : mesh_cache_save_path (c :: d) =
        (c :: d) ++ '/' :: ((c :: d) ++ mesh_cache_name) := by
      unfold mesh_cache_save_path ospath_join
      rw [if_neg, if_neg hnotor]
      rw [hsavehead]
      simp [hc]
    intro hcontra
    rw [hsave, hload] at hcontra
    have hlen := congrArg List.length hcontra
    simp only [List.length_append, List.length_cons] at hlen
    omega

/-- Witness for claim C10 at the concrete directory `"logs"`. -/
theorem mesh_cache_paths_differ_witness :
    (['l', 'o', 'g', 's'] : List Char) ≠ [] ∧
    (['l', 'o', 'g', 's'] : List Char).getLast? ≠ some '/' ∧
    mesh_cache_save_path ['l', 'o', 'g', 's'] ≠
      mesh_cache_load_path ['l', 'o', 'g', 's'] :=
  ⟨by decide, by decide,
    mesh_cache_paths_differ ['l', 'o', 'g', 's'] (by decide) (by decide)⟩

theorem splitOnce_sep_free (sep : Char) (k : Key) (h : ∀ c ∈ k, c ≠ sep) :
    splitOnce sep k = (k, none) := by
  induction k with
  | nil => rfl
  | cons c cs ih =>
    have hc : c ≠ sep := h c (List.mem_cons_self c cs)
    simp only [splitOnce, if_neg hc]
    rw [ih (fun x hx => h x (List.mem_cons_of_mem c hx))]

theorem splitOnce_append_sep (sep : Char) (k1 r : Key) (h : ∀ c ∈ k1, c ≠ sep) :
    splitOnce sep (k1 ++ sep :: r) = (k1, some r) := by
  induction k1 with
  | nil => simp [splitOnce]
  | cons c cs ih =>
    have hc : c ≠ sep := h c (List.mem_cons_self c cs)
    simp only [List.cons_append, splitOnce, if_neg hc, List.append_eq]
    rw [ih (fun x hx => h x (List.mem_cons_of_mem c hx))]

theorem keyOk_spec (sep : Char) (k : Key) (h : keyOk sep k = true) :
    k ≠ [] ∧ ∀ c ∈ k, c ≠ sep := by
  unfold keyOk at h
  rw [Bool.and_eq_true] at h
  constructor
  · intro hnil
    subst hnil
    simp at h
  · intro c hc
    have := List.all_eq_true.mp h.2 c hc
    simpa using this

theorem nest_rec_sep_free (sep : Char) (k : Key) (v : ℤ) (out : PyDict)
    (hsf : ∀ c ∈ k, c ≠ sep) :
    nest_rec sep k v out = some (setKeyD out k (.vInt v)) := by
  rw [nest_rec.eq_def]
  split
  next k1 heq =>
    rw [splitOnce_sep_free sep k hsf] at heq
    injection heq with h1 h2
    subst h1
    rfl
  next k1 rest heq =>
    rw [splitOnce_sep_free sep k hsf] at heq
    injection heq with h1 h2
    cases h2

theorem nest_rec_step (sep : Char) (k1 r : Key) (v : ℤ) (out : PyDict)
    (hsf : ∀ c ∈ k1, c ≠ sep) :
    nest_rec sep (k1 ++ sep :: r) v out =
      match pyGet out k1 with
      | some (.vInt _) => none
      | some (.vDict d) =>
        match nest_rec sep r v d with
        | none => none
        | some inner => some (setKeyD out k1 (.vDict inner))
      | none =>
        match nest_rec sep r v PyDict.nil with
        | none => none
        | some inner => some (setKeyD out k1 (.vDict inner)) := by
  conv_lhs => rw [nest_rec.eq_def]
  split
  next k1' heq =>
    rw [splitOnce_append_sep sep k1 r hsf] at heq
    injection heq with h1 h2
    cases h2
  next k1' rest' heq =>
    rw [splitOnce_append_sep sep k1 r hsf] at heq
    injection heq with h1 h2
    injection h2 with h2
    subst h1
    subst h2
    rfl

theorem setKeyFlat_keys (l : List (Key × ℤ)) (k : Key) (v : ℤ) :
    (setKeyFlat l k v).map Prod.fst =
      if k ∈ l.map Prod.fst then l.map Prod.fst else l.map Prod.fst ++ [k] := by
  induction l with
  | nil => simp [setKeyFlat]
  | cons kv rest ih =>
    obtain ⟨k', v'⟩ := kv
    by_cases hk : k' = k
    · subst hk
      simp [setKeyFlat]
    · simp only [setKeyFlat, if_neg hk, List.map_cons, ih]
      by_cases hmem : k ∈ rest.map Prod.fst
      · rw [if_pos hmem, if_pos]
        simp [hmem]
      · rw [if_neg hmem, if_neg]
        · simp
        · simp only [List.mem_cons]
          intro hor
          rcases hor with hor | hor
          · exact hk hor.symm
          · exact hmem hor

theorem foldl_setKeyFlat_nodup (l : List (Key × ℤ)) (acc : List (Key × ℤ))
    (hacc : (acc.map Prod.fst).Nodup) :
    ((l.foldl (fun acc kv => setKeyFlat acc kv.1 kv.2) acc).map Prod.fst).Nodup := by
  induction l generalizing acc with
  | nil => exact hacc
  | cons kv rest ih =>
    refine ih _ ?_
    rw [setKeyFlat_keys]
    by_cases hmem : kv.1 ∈ acc.map Prod.fst
    · rw [if_pos hmem]
      exact hacc
    · rw [if_neg hmem]
      rw [List.nodup_append]
      exact ⟨hacc, List.nodup_singleton _, by simpa using hmem⟩

theorem dictOf_nodup (l : List (Key × ℤ)) : ((dictOf l).map Prod.fst).Nodup :=
  foldl_setKeyFlat_nodup l [] (by simp)

theorem foldl_setKeyFlat_keys_sub (l : List (Key × ℤ)) (acc : List (Key × ℤ))
    (key : Key)
    (h : key ∈ ((l.foldl (fun acc kv => setKeyFlat acc kv.1 kv.2) acc).map Prod.fst)) :
    key ∈ acc.map Prod.fst ∨ key ∈ l.map Prod.fst := by
  induction l generalizing acc with
  | nil => exact Or.inl h
  | cons kv rest ih =>
    rcases ih _ h with hin | hin
    · rw [setKeyFlat_keys] at hin
      by_cases hmem : kv.1 ∈ acc.map Prod.fst
      · rw [if_pos hmem] at hin
        exact Or.inl hin
      · rw [if_neg hmem] at hin
        rcases List.mem_append.mp hin with hin | hin
        · exact Or.inl hin
        · right
          simp only [List.mem_singleton] at hin
          simp [hin]
    · right
      simp [hin]

theorem dictOf_keys_sub (l : List (Key × ℤ)) (key : Key)
    (h : key ∈ (dictOf l).map Prod.fst) : key ∈ l.map Prod.fst := by
  rcases foldl_setKeyFlat_keys_sub l [] key h with hin | hin
  · simp at hin
  · exact hin

theorem setKeyFlat_absent (l : List (Key × ℤ)) (k : Key) (v : ℤ)
    (h : ¬k ∈ l.map Prod.fst) : setKeyFlat l k v = l ++ [(k, v)] := by
  induction l with
  | nil => rfl
  | cons kv rest ih =>
    obtain ⟨k', v'⟩ := kv
    have hk : k' ≠ k := by
      intro hcontra
      exact h (by simp [hcontra])
    simp only [setKeyFlat, if_neg hk, List.cons_append, List.cons.injEq, true_and]
    exact ih (fun hmem => h (by simp [hmem]))

theorem foldl_setKeyFlat_eq_append (l : List (Key × ℤ)) (acc : List (Key × ℤ))
    (h : (((acc ++ l).map Prod.fst)).Nodup) :
    l.foldl (fun acc kv => setKeyFlat acc kv.1 kv.2) acc = acc ++ l := by
  induction l generalizing acc with
  | nil => simp
  | cons kv rest ih =>
    obtain ⟨k, v⟩ := kv
    have hnotin : ¬k ∈ acc.map Prod.fst := by
      intro hmem
      rw [List.map_append] at h
      rcases List.nodup_append.mp h with ⟨_, _, hdisj⟩
      exact hdisj hmem (by simp)
    have hstep : setKeyFlat acc k v = acc ++ [(k, v)] := setKeyFlat_absent acc k v hnotin
    simp only [List.foldl_cons, hstep]
    have hre : (acc ++ [(k, v)]) ++ rest = acc ++ (k, v) :: rest := by simp
    rw [ih (acc ++ [(k, v)]) (by rw [hre]; exact h)]
    rw [hre]

theorem dictOf_eq_self (l : List (Key × ℤ)) (h : (l.map Prod.fst).Nodup) :
    dictOf l = l := by
  unfold dictOf
  have := foldl_setKeyFlat_eq_append l [] (by simpa using h)
  simpa using this

theorem setKeyFlat_ne_nil (l : List (Key × ℤ)) (k : Key) (v : ℤ) :
    setKeyFlat l k v ≠ [] := by
  cases l with
  | nil => simp [setKeyFlat]
  | cons kv rest =>
    obtain ⟨k', v'⟩ := kv
    by_cases hk : k' = k <;> simp [setKeyFlat, hk]

theorem foldl_setKeyFlat_ne_nil (l : List (Key × ℤ)) (acc : List (Key × ℤ))
    (hacc : acc ≠ []) :
    l.foldl (fun acc kv => setKeyFlat acc kv.1 kv.2) acc ≠ [] := by
  induction l generalizing acc with
  | nil => exact hacc
  | cons kv rest ih => exact ih _ (setKeyFlat_ne_nil _ _ _)

theorem dictOf_ne_nil (l : List (Key × ℤ)) (h : l ≠ []) : dictOf l ≠ [] := by
  cases l with
  | nil => exact absurd rfl h
  | cons kv rest =>
    unfold dictOf
    rw [List.foldl_cons]
    exact foldl_setKeyFlat_ne_nil rest _ (setKeyFlat_ne_nil _ _ _)

theorem pyGet_setKeyD_self (out : PyDict) (k : Key) (v : PyVal) :
    pyGet (setKeyD out k v) k = some v := by
  induction out with
  | nil => cases v <;> simp [setKeyD, consOf, pyGet]
  | consInt k' n rest ih =>
    by_cases hk : k' = k
    · cases v <;> simp [setKeyD, hk, consOf, pyGet]
    · simp [setKeyD, hk, pyGet, ih]
  | consDict k' d rest ihd ih =>
    by_cases hk : k' = k
    · cases v <;> simp [setKeyD, hk, consOf, pyGet]
    · simp [setKeyD, hk, pyGet, ih]

theorem setKeyD_setKeyD (out : PyDict) (k : Key) (v w : PyVal) :
    setKeyD (setKeyD out k v) k w = setKeyD out k w := by
  induction out with
  | nil => cases v <;> cases w <;> simp [setKeyD, consOf]
  | consInt k' n rest ih =>
    by_cases hk : k' = k
    · cases v <;> cases w <;> simp [setKeyD, hk, consOf]
    · cases v <;> cases w <;> simp [setKeyD, hk, consOf, ih]
  | consDict k' d rest ihd ih =>
    by_cases hk : k' = k
    · cases v <;> cases w <;> simp [setKeyD, hk, consOf]
    · cases v <;> cases w <;> simp [setKeyD, hk, consOf, ih]

theorem setKeyD_of_pyGet (out : PyDict) (k : Key) (v : PyVal)
    (h : pyGet out k = some v) : setKeyD out k v = out := by
  induction out with
  | nil => simp [pyGet] at h
  | consInt k' n rest ih =>
    by_cases hk : k' = k
    · simp only [pyGet, if_pos hk] at h
      injection h with h
      subst h
      simp [setKeyD, hk, consOf]
    · simp only [pyGet, if_neg hk] at h
      simp [setKeyD, hk, ih h]
  | consDict k' d rest ihd ih =>
    by_cases hk : k' = k
    · simp only [pyGet, if_pos hk] at h
      injection h with h
      subst h
      simp [setKeyD, hk, consOf]
    · simp only [pyGet, if_neg hk] at h
      simp [setKeyD, hk, ih h]

theorem setKeyD_absent (out : PyDict) (k : Key) (v : PyVal)
    (h : pyGet out k = none) :
    setKeyD out k v = dictAppend out (consOf k v .nil) := by
  induction out with
  | nil => cases v <;> simp [setKeyD, dictAppend, consOf]
  | consInt k' n rest ih =>
    have hk : k' ≠ k := by
      intro hcontra
      simp [pyGet, hcontra] at h
    simp only [pyGet, if_neg hk] at h
    cases v <;> simp [setKeyD, hk, dictAppend, consOf] <;>
      simpa [consOf] using ih h
  | consDict k' d rest ihd ih =>
    have hk : k' ≠ k := by
      intro hcontra
      simp [pyGet, hcontra] at h
    simp only [pyGet, if_neg hk] at h
    cases v <;> simp [setKeyD, hk, dictAppend, consOf] <;>
      simpa [consOf] using ih h

theorem pyGet_dictAppend (a b : PyDict) (key : Key) :
    pyGet (dictAppend a b) key =
      match pyGet a key with
      | some v => some v
      | none => pyGet b key := by
  induction a with
  | nil => simp [dictAppend, pyGet]
  | consInt k n rest ih =>
    by_cases hk : k = key
    · simp [dictAppend, pyGet, hk]
    · simp [dictAppend, pyGet, hk, ih]
  | consDict k d rest ihd ih =>
    by_cases hk : k = key
    · simp [dictAppend, pyGet, hk]
    · simp [dictAppend, pyGet, hk, ih]

theorem dictAppend_nil (d : PyDict) : dictAppend d .nil = d := by
  induction d with
  | nil => rfl
  | consInt k n rest ih => simp [dictAppend, ih]
  | consDict k d' rest ihd ih => simp [dictAppend, ih]

theorem dictAppend_assoc (a b c : PyDict) :
    dictAppend (dictAppend a b) c = dictAppend a (dictAppend b c) := by
  induction a with
  | nil => rfl
  | consInt k n rest ih => simp [dictAppend, ih]
  | consDict k d rest ihd ih => simp [dictAppend, ih]

theorem dictAppend_consOf (k : Key) (v : PyVal) (rest : PyDict) :
    dictAppend (consOf k v .nil) rest = consOf k v rest := by
  cases v <;> rfl

theorem joinKey_nil_parent (sep : Char) (k : Key) : joinKey [] sep k = k := rfl

theorem joinKey_of_ne_nil (parent : Key) (sep : Char) (k : Key)
    (h : parent ≠ []) : joinKey parent sep k = parent ++ sep :: k := by
  unfold joinKey
  rw [if_neg]
  simpa using h

theorem joinKey_ne_nil (parent : Key) (sep : Char) (k : Key) (h : k ≠ []) :
    joinKey parent sep k ≠ [] := by
  unfold joinKey
  by_cases hp : parent.isEmpty
  · rw [if_pos hp]
    exact h
  · rw [if_neg hp]
    simp

theorem extKey_refl (sep : Char) (base : Key) : extKey sep base base := Or.inl rfl

theorem extKey_of_extKey_append (sep : Char) (b k2 key : Key)
    (h : extKey sep (b ++ sep :: k2) key) : extKey sep b key := by
  rcases h with h | ⟨r, h⟩
  · exact Or.inr ⟨k2, h⟩
  · refine Or.inr ⟨k2 ++ sep :: r, ?_⟩
    rw [h, List.append_assoc, List.cons_append]

theorem splitOnce_fst_of_extKey (sep : Char) (k1 key : Key)
    (hsf : ∀ c ∈ k1, c ≠ sep) (h : extKey sep k1 key) :
    (splitOnce sep key).1 = k1 := by
  rcases h with h | ⟨r, h⟩
  · rw [h, splitOnce_sep_free sep k1 hsf]
  · rw [h, splitOnce_append_sep sep k1 r hsf]

theorem extKey_strip (sep : Char) (p b key : Key)
    (h : extKey sep (p ++ sep :: b) key) :
    ∃ u, key = p ++ sep :: u ∧ extKey sep b u := by
  rcases h with h | ⟨r, h⟩
  · exact ⟨b, h, extKey_refl sep b⟩
  · refine ⟨b ++ sep :: r, ?_, Or.inr ⟨r, rfl⟩⟩
    rw [h, List.append_assoc, List.cons_append]

theorem extKey_inj (sep : Char) (parent k1 k1' key : Key)
    (hsf : ∀ c ∈ k1, c ≠ sep) (hsf' : ∀ c ∈ k1', c ≠ sep)
    (h : extKey sep (joinKey parent sep k1) key)
    (h' : extKey sep (joinKey parent sep k1') key) : k1 = k1' := by
  by_cases hp : parent = []
  · subst hp
    rw [joinKey_nil_parent] at h h'
    rw [← splitOnce_fst_of_extKey sep k1 key hsf h,
      splitOnce_fst_of_extKey sep k1' key hsf' h']
  · rw [joinKey_of_ne_nil parent sep k1 hp] at h
    rw [joinKey_of_ne_nil parent sep k1' hp] at h'
    obtain ⟨u, hu, hext⟩ := extKey_strip sep parent k1 key h
    obtain ⟨u', hu', hext'⟩ := extKey_strip sep parent k1' key h'
    have huu : u = u' := by
      rw [hu] at hu'
      have := List.append_cancel_left hu'
      injection this
    subst huu
    rw [← splitOnce_fst_of_extKey sep k1 u hsf hext,
      splitOnce_fst_of_extKey sep k1' u hsf' hext']

theorem contains_key_iff (l : List Key) (k : Key) : l.contains k = true ↔ k ∈ l := by
  simp

theorem dictWF_consInt (sep : Char) (k : Key) (n : ℤ) (rest : PyDict)
    (h : dictWF sep (.consInt k n rest) = true) :
    keyOk sep k = true ∧ ¬k ∈ dictKeys rest ∧ dictWF sep rest = true := by
  unfold dictWF at h
  rw [Bool.and_eq_true, Bool.and_eq_true] at h
  refine ⟨h.1.1, ?_, h.2⟩
  have := h.1.2
  rw [Bool.not_eq_true'] at this
  intro hmem
  rw [(contains_key_iff (dictKeys rest) k).mpr hmem] at this
  cases this

theorem dictWF_consDict (sep : Char) (k : Key) (d rest : PyDict)
    (h : dictWF sep (.consDict k d rest) = true) :
    keyOk sep k = true ∧ ¬k ∈ dictKeys rest ∧ d ≠ .nil ∧
      dictWF sep d = true ∧ dictWF sep rest = true := by
  unfold dictWF at h
  rw [Bool.and_eq_true, Bool.and_eq_true, Bool.and_eq_true, Bool.and_eq_true] at h
  refine ⟨h.1.1.1.1, ?_, ?_, h.1.2, h.2⟩
  · have := h.1.1.1.2
    rw [Bool.not_eq_true'] at this
    intro hmem
    rw [(contains_key_iff (dictKeys rest) k).mpr hmem] at this
    cases this
  · have := h.1.1.2
    rw [Bool.not_eq_true'] at this
    intro hmem
    rw [decide_eq_false_iff_not] at this
    exact this hmem

theorem flatten_items_key_extKey (sep : Char) (d : PyDict) :
    ∀ (parent : Key), dictWF sep d = true →
      ∀ key ∈ (flatten_items sep parent d).map Prod.fst,
        ∃ k1, k1 ∈ dictKeys d ∧ (∀ c ∈ k1, c ≠ sep) ∧
          extKey sep (joinKey parent sep k1) key := by
  induction d with
  | nil =>
    intro parent _ key hkey
    simp [flatten_items] at hkey
  | consInt k n rest ih =>
    intro parent hwf key hkey
    obtain ⟨hk, hmem, hrest⟩ := dictWF_consInt sep k n rest hwf
    simp only [flatten_items, List.map_cons, List.mem_cons] at hkey
    rcases hkey with hkey | hkey
    · refine ⟨k, by simp [dictKeys], (keyOk_spec sep k hk).2, ?_⟩
      rw [hkey]
      exact extKey_refl _ _
    · obtain ⟨k1, hk1, hsf, hext⟩ := ih parent hrest key hkey
      exact ⟨k1, by simp [dictKeys, hk1], hsf, hext⟩
  | consDict k d' rest ihd ih =>
    intro parent hwf key hkey
    obtain ⟨hk, hmem, hdne, hd, hrest⟩ := dictWF_consDict sep k d' rest hwf
    simp only [flatten_items, List.map_append, List.mem_append] at hkey
    rcases hkey with hkey | hkey
    · have hkey' := dictOf_keys_sub _ key hkey
      obtain ⟨k2, hk2, hsf2, hext2⟩ := ihd (joinKey parent sep k) hd key hkey'
      have hne : joinKey parent sep k ≠ [] :=
        joinKey_ne_nil parent sep k (keyOk_spec sep k hk).1
      rw [joinKey_of_ne_nil (joinKey parent sep k) sep k2 hne] at hext2
      exact ⟨k, by simp [dictKeys], (keyOk_spec sep k hk).2,
        extKey_of_extKey_append sep _ k2 key hext2⟩
    · obtain ⟨k1, hk1, hsf, hext⟩ := ih parent hrest key hkey
      exact ⟨k1, by simp [dictKeys, hk1], hsf, hext⟩

theorem flatten_items_nodup (sep : Char) (d : PyDict) :
    ∀ parent, dictWF sep d = true →
      ((flatten_items sep parent d).map Prod.fst).Nodup := by
  induction d with
  | nil =>
    intro parent _
    simp [flatten_items]
  | consInt k n rest ih =>
    intro parent hwf
    obtain ⟨hk, hmem, hrest⟩ := dictWF_consInt sep k n rest hwf
    simp only [flatten_items, List.map_cons]
    rw [List.nodup_cons]
    refine ⟨?_, ih parent hrest⟩
    intro hin
    obtain ⟨k1, hk1, hsf1, hext1⟩ := flatten_items_key_extKey sep rest parent hrest _ hin
    have hkk : k = k1 := extKey_inj sep parent k k1 _ (keyOk_spec sep k hk).2 hsf1
      (extKey_refl _ _) hext1
    exact hmem (hkk ▸ hk1)
  | consDict k d' rest ihd ih =>
    intro parent hwf
    obtain ⟨hk, hmem, hdne, hd, hrest⟩ := dictWF_consDict sep k d' rest hwf
    simp only [flatten_items, List.map_append]
    rw [List.nodup_append]
    refine ⟨dictOf_nodup _, ih parent hrest, ?_⟩
    intro key hkeyL hkeyR
    have hkey' := dictOf_keys_sub _ key hkeyL
    obtain ⟨k2, hk2, hsf2, hext2⟩ :=
      flatten_items_key_extKey sep d' (joinKey parent sep k) hd key hkey'
    have hne : joinKey parent sep k ≠ [] :=
      joinKey_ne_nil parent sep k (keyOk_spec sep k hk).1
    rw [joinKey_of_ne_nil (joinKey parent sep k) sep k2 hne] at hext2
    have hextk : extKey sep (joinKey parent sep k) key :=
      extKey_of_extKey_append sep _ k2 key hext2
    obtain ⟨k1, hk1, hsf1, hext1⟩ :=
      flatten_items_key_extKey sep rest parent hrest key hkeyR
    have hkk : k = k1 := extKey_inj sep parent k k1 key (keyOk_spec sep k hk).2 hsf1
      hextk hext1
    exact hmem (hkk ▸ hk1)

theorem flatten_dict_eq_items (sep : Char) (parent : Key) (d : PyDict)
    (h : dictWF sep d = true) :
    flatten_dict sep parent d = flatten_items sep parent d :=
  dictOf_eq_self _ (flatten_items_nodup sep d parent h)

theorem flatten_items_ne_nil (sep : Char) (d : PyDict) :
    ∀ parent, dictWF sep d = true → d ≠ .nil →
      flatten_items sep parent d ≠ [] := by
  induction d with
  | nil =>
    intro parent _ hne
    exact absurd rfl hne
  | consInt k n rest ih =>
    intro parent _ _
    simp [flatten_items]
  | consDict k d' rest ihd ih =>
    intro parent hwf _
    obtain ⟨hk, hmem, hdne, hd, hrest⟩ := dictWF_consDict sep k d' rest hwf
    simp only [flatten_items]
    intro hcontra
    rcases List.append_eq_nil.mp hcontra with ⟨h1, h2⟩
    exact dictOf_ne_nil _ (ihd (joinKey parent sep k) hd hdne) h1

theorem flatten_items_prefixed (sep : Char) (d : PyDict) :
    ∀ parent, dictWF sep d = true → parent ≠ [] →
      flatten_items sep parent d =
        (flatten_items sep [] d).map (fun kv => (parent ++ sep :: kv.1, kv.2)) := by
  induction d with
  | nil =>
    intro parent _ _
    simp [flatten_items]
  | consInt k n rest ih =>
    intro parent hwf hp
    obtain ⟨hk, hmem, hrest⟩ := dictWF_consInt sep k n rest hwf
    simp only [flatten_items, List.map_cons, joinKey_nil_parent]
    rw [joinKey_of_ne_nil parent sep k hp, ih parent hrest hp]
  | consDict k d' rest ihd ih =>
    intro parent hwf hp
    obtain ⟨hk, hmem, hdne, hd, hrest⟩ := dictWF_consDict sep k d' rest hwf
    have hkne : k ≠ [] := (keyOk_spec sep k hk).1
    simp only [flatten_items, List.map_append, joinKey_nil_parent]
    rw [dictOf_eq_self _ (flatten_items_nodup sep d' (joinKey parent sep k) hd),
      dictOf_eq_self _ (flatten_items_nodup sep d' k hd),
      joinKey_of_ne_nil parent sep k hp,
      ihd (parent ++ sep :: k) hd (by simp),
      ihd k hd hkne,
      ih parent hrest hp,
      List.map_map]
    have hfun : ((fun kv : Key × ℤ => (parent ++ sep :: kv.1, kv.2)) ∘
        fun kv : Key × ℤ => (k ++ sep :: kv.1, kv.2)) =
        fun kv : Key × ℤ => ((parent ++ sep :: k) ++ sep :: kv.1, kv.2) := by
      funext kv
      simp [Function.comp, List.append_assoc]
    rw [hfun]

theorem nest_fold_append (sep : Char) (X Y : List (Key × ℤ)) (out : PyDict) :
    nest_fold sep (X ++ Y) out =
      match nest_fold sep X out with
      | none => none
      | some o => nest_fold sep Y o := by
  induction X generalizing out with
  | nil => simp [nest_fold]
  | cons kv rest ih =>
    obtain ⟨k, v⟩ := kv
    simp only [List.cons_append, nest_fold]
    cases nest_rec sep k v out with
    | none => rfl
    | some out' => exact ih out'

theorem nest_rec_step_dict (sep : Char) (k1 r : Key) (v : ℤ) (out u : PyDict)
    (hsf : ∀ c ∈ k1, c ≠ sep) (hget : pyGet out k1 = some (.vDict u)) :
    nest_rec sep (k1 ++ sep :: r) v out =
      match nest_rec sep r v u with
      | none => none
      | some inner => some (setKeyD out k1 (.vDict inner)) := by
  rw [nest_rec_step sep k1 r v out hsf, hget]

theorem nest_rec_step_new (sep : Char) (k1 r : Key) (v : ℤ) (out : PyDict)
    (hsf : ∀ c ∈ k1, c ≠ sep) (hget : pyGet out k1 = none) :
    nest_rec sep (k1 ++ sep :: r) v out =
      match nest_rec sep r v PyDict.nil with
      | none => none
      | some inner => some (setKeyD out k1 (.vDict inner)) := by
  rw [nest_rec_step sep k1 r v out hsf, hget]

theorem nest_fold_prefixed_present (sep : Char) (k1 : Key)
    (hsf : ∀ c ∈ k1, c ≠ sep) :
    ∀ (F : List (Key × ℤ)) (out u : PyDict),
      pyGet out k1 = some (.vDict u) →
      nest_fold sep (F.map (fun kv => (k1 ++ sep :: kv.1, kv.2))) out =
        match nest_fold sep F u with
        | none => none
        | some w => some (setKeyD out k1 (.vDict w)) := by
  intro F
  induction F with
  | nil =>
    intro out u hget
    simp only [List.map_nil, nest_fold]
    rw [setKeyD_of_pyGet out k1 _ hget]
  | cons kv F' ih =>
    intro out u hget
    obtain ⟨r, v⟩ := kv
    simp only [List.map_cons, nest_fold]
    rw [nest_rec_step_dict sep k1 r v out u hsf hget]
    cases hrec : nest_rec sep r v u with
    | none => rfl
    | some u' =>
      show nest_fold sep (F'.map (fun kv => (k1 ++ sep :: kv.1, kv.2)))
          (setKeyD out k1 (.vDict u')) =
        match nest_fold sep F' u' with
        | none => none
        | some w => some (setKeyD out k1 (.vDict w))
      rw [ih (setKeyD out k1 (.vDict u')) u' (pyGet_setKeyD_self out k1 _)]
      cases nest_fold sep F' u' with
      | none => rfl
      | some w =>
        show some (setKeyD (setKeyD out k1 (.vDict u')) k1 (.vDict w)) =
          some (setKeyD out k1 (.vDict w))
        rw [setKeyD_setKeyD]

theorem nest_fold_prefixed_absent (sep : Char) (k1 : Key)
    (hsf : ∀ c ∈ k1, c ≠ sep) (F : List (Key × ℤ)) (out : PyDict)
    (hget : pyGet out k1 = none) (hne : F ≠ []) :
    nest_fold sep (F.map (fun kv => (k1 ++ sep :: kv.1, kv.2))) out =
      match nest_fold sep F PyDict.nil with
      | none => none
      | some w => some (setKeyD out k1 (.vDict w)) := by
  cases F with
  | nil => exact absurd rfl hne
  | cons kv F' =>
    obtain ⟨r, v⟩ := kv
    simp only [List.map_cons, nest_fold]
    rw [nest_rec_step_new sep k1 r v out hsf hget]
    cases hrec : nest_rec sep r v PyDict.nil with
    | none => rfl
    | some u1 =>
      show nest_fold sep (F'.map (fun kv => (k1 ++ sep :: kv.1, kv.2)))
          (setKeyD out k1 (.vDict u1)) =
        match nest_fold sep F' u1 with
        | none => none
        | some w => some (setKeyD out k1 (.vDict w))
      rw [nest_fold_prefixed_present sep k1 hsf F' (setKeyD out k1 (.vDict u1)) u1
        (pyGet_setKeyD_self out k1 _)]
      cases nest_fold sep F' u1 with
      | none => rfl
      | some w =>
        show some (setKeyD (setKeyD out k1 (.vDict u1)) k1 (.vDict w)) =
          some (setKeyD out k1 (.vDict w))
        rw [setKeyD_setKeyD]

theorem nest_fold_flatten (sep : Char) (d : PyDict) :
    ∀ out, dictWF sep d = true →
      (∀ k ∈ dictKeys d, pyGet out k = none) →
      nest_fold sep (flatten_items sep [] d) out = some (dictAppend out d) := by
  induction d with
  | nil =>
    intro out _ _
    simp [flatten_items, nest_fold, dictAppend_nil]
  | consInt k n rest ih =>
    intro out hwf hdisj
    obtain ⟨hk, hmem, hrest⟩ := dictWF_consInt sep k n rest hwf
    have hknil : pyGet out k = none := hdisj k (by simp [dictKeys])
    simp only [flatten_items, joinKey_nil_parent, nest_fold]
    rw [nest_rec_sep_free sep k n out (keyOk_spec sep k hk).2]
    show nest_fold sep (flatten_items sep [] rest) (setKeyD out k (.vInt n)) =
      some (dictAppend out (.consInt k n rest))
    rw [setKeyD_absent out k _ hknil]
    have hdisj' : ∀ k' ∈ dictKeys rest,
        pyGet (dictAppend out (consOf k (.vInt n) .nil)) k' = none := by
      intro k' hk'
      rw [pyGet_dictAppend, hdisj k' (by simp [dictKeys, hk'])]
      have hkk : k ≠ k' := fun hcontra => hmem (hcontra ▸ hk')
      simp [consOf, pyGet, hkk]
    rw [ih (dictAppend out (consOf k (.vInt n) .nil)) hrest hdisj', dictAppend_assoc]
    rfl
  | consDict k d' rest ihd ih =>
    intro out hwf hdisj
    obtain ⟨hk, hmem, hdne, hd, hrest⟩ := dictWF_consDict sep k d' rest hwf
    have hknil : pyGet out k = none := hdisj k (by simp [dictKeys])
    have hkne : k ≠ [] := (keyOk_spec sep k hk).1
    simp only [flatten_items, joinKey_nil_parent]
    rw [dictOf_eq_self _ (flatten_items_nodup sep d' k hd),
      flatten_items_prefixed sep d' k hd hkne,
      nest_fold_append,
      nest_fold_prefixed_absent sep k (keyOk_spec sep k hk).2 _ out hknil
        (fun hcontra => flatten_items_ne_nil sep d' [] hd hdne hcontra),
      ihd PyDict.nil hd (fun k' _ => rfl)]
    show nest_fold sep (flatten_items sep [] rest)
        (setKeyD out k (.vDict (dictAppend PyDict.nil d'))) =
      some (dictAppend out (.consDict k d' rest))
    have hnil : dictAppend PyDict.nil d' = d' := rfl
    rw [hnil, setKeyD_absent out k _ hknil]
    have hdisj' : ∀ k' ∈ dictKeys rest,
        pyGet (dictAppend out (consOf k (.vDict d') .nil)) k' = none := by
      intro k' hk'
      rw [pyGet_dictAppend, hdisj k' (by simp [dictKeys, hk'])]
      have hkk : k ≠ k' := fun hcontra => hmem (hcontra ▸ hk')
      simp [consOf, pyGet, hkk]
    rw [ih (dictAppend out (consOf k (.vDict d') .nil)) hrest hdisj', dictAppend_assoc]
    rfl

/-- Claim C2 (amended): for every configuration with at least two levels of
nesting whose keys (at every level) are nonempty, unique per level and free
of the default separator `'_'`, and whose nested sub-mappings are nonempty,
`nest_dict(flatten_dict(cfg))` with the default separators reconstructs
`cfg` exactly — in particular with the same leaf values.  Keys containing
the separator break the round trip (see the counterexample). -/
theorem nest_flatten_roundtrip (d : PyDict)
    (hwf : dictWF '_' d = true) (hnested : hasNestedDict d = true) :
    nest_dict (flatten_dict '_' [] d) '_' = some d := by
  unfold nest_dict
  rw [flatten_dict_eq_items '_' [] d hwf,
    nest_fold_flatten '_' d PyDict.nil hwf (fun k _ => rfl)]
  rfl

/-- Witness for the amended claim C2 at the two-level configuration
`{"a": {"b": 3}, "c": 4}`. -/
theorem nest_flatten_roundtrip_witness :
    dictWF '_' (.consDict ['a'] (.consInt ['b'] 3 .nil) (.consInt ['c'] 4 .nil)) = true ∧
    hasNestedDict (.consDict ['a'] (.consInt ['b'] 3 .nil) (.consInt ['c'] 4 .nil)) = true ∧
    nest_dict (flatten_dict '_' []
        (.consDict ['a'] (.consInt ['b'] 3 .nil) (.consInt ['c'] 4 .nil))) '_' =
      some (.consDict ['a'] (.consInt ['b'] 3 .nil) (.consInt ['c'] 4 .nil)) :=
  ⟨by decide, by decide, nest_flatten_roundtrip _ (by decide) (by decide)⟩

/-- Counterexample to claim C2 as stated: the two-level configuration
`{"a": {"b": 1}, "a_b": 2}` contains the default separator in a key, the
flattening collapses both leaves onto the key `"a_b"` (last value wins),
and the round trip returns `{"a": {"b": 2}}` — the leaf value `1` is lost,
so the rebuilt tree does not have the same leaf values as the input. -/
theorem config_roundtrip_counterexample :
    hasNestedDict (.consDict ['a'] (.consInt ['b'] 1 .nil)
      (.consInt ['a', '_', 'b'] 2 .nil)) = true ∧
    nest_dict (flatten_dict '_' [] (.consDict ['a'] (.consInt ['b'] 1 .nil)
        (.consInt ['a', '_', 'b'] 2 .nil))) '_' =
      some (.consDict ['a'] (.consInt ['b'] 2 .nil) .nil) ∧
    dictLeafVals (.consDict ['a'] (.consInt ['b'] 1 .nil)
      (.consInt ['a', '_', 'b'] 2 .nil)) = [1, 2] ∧
    dictLeafVals (.consDict ['a'] (.consInt ['b'] 2 .nil) .nil) = [2] ∧
    ¬(1 : ℤ) ∈ dictLeafVals (.consDict ['a'] (.consInt ['b'] 2 .nil) .nil) := by
  refine ⟨by decide, ?_, by decide, by decide, by decide⟩
  have hflat : flatten_dict '_' [] (.consDict ['a'] (.consInt ['b'] 1 .nil)
      (.consInt ['a', '_', 'b'] 2 .nil)) = [(['a', '_', 'b'], 2)] := by decide
  rw [hflat]
  simp [nest_dict, nest_fold, nest_rec, splitOnce, pyGet, setKeyD, consOf]
